import Mathlib

/-!
Shallow embedding of the DataPack / DataIndex core of the repository
(`nlp/pipeline/data/data_pack.py`): the entry store, the index manager,
the span algebra and the request-driven extraction engine, together with
theorems about the behaviour asserted in the specification.

Python dictionaries are modelled as insertion-ordered association lists,
Python sets as lists with set semantics (membership-guarded append), and
Python ints as `Int` (the source uses `-1` sentinels).  Entry classes of
the ontology module (which is not part of the sources) form a small
closed universe, modelled from the spec.
-/

/-- Association-list lookup, mirroring `dict.__getitem__` / `dict.get`. -/
def alookup {κ α : Type} [DecidableEq κ] : List (κ × α) → κ → Option α
  | [], _ => none
  | kv :: rest, k => if kv.1 = k then some kv.2 else alookup rest k

/-- Association-list update, mirroring `dict.__setitem__`
(insertion order preserved, new keys appended at the end). -/
def aset {κ α : Type} [DecidableEq κ] : List (κ × α) → κ → α → List (κ × α)
  | [], k, v => [(k, v)]
  | kv :: rest, k, v => if kv.1 = k then (k, v) :: rest else kv :: aset rest k v

/-- The `defaultdict(set)` pattern `m[k].add(v)` of the source's indexes. -/
def idxAdd {κ : Type} [DecidableEq κ] (m : List (κ × List String)) (k : κ) (v : String) :
    List (κ × List String) :=
  match alookup m k with
  | some vs => aset m k (if v ∈ vs then vs else vs ++ [v])
  | none => m ++ [(k, [v])]

/-- Python set union (order of first appearance; only membership matters). -/
def setUnion (a b : List String) : List String :=
  a ++ b.filter (fun x => !(decide (x ∈ a)))

/-- Spans are half-open `[begin, end)` intervals.  `end` is a Lean
keyword, hence the trailing underscores. -/
structure Span where
  begin_ : Int
  end_ : Int
deriving DecidableEq, Repr

/-- Modelled from the spec: the ontology module (not under `src/`) orders
annotations by `(span.begin, span.end)`; this is the strict part of that
order, as used by the sorted container's insertion and `bisect`. -/
def spanLTb (x y : Span) : Bool :=
  decide (x.begin_ < y.begin_ ∨ (x.begin_ = y.begin_ ∧ x.end_ < y.end_))

/-- Non-strict `(begin, end)` lexicographic order on spans. -/
def spanLEb (x y : Span) : Bool :=
  decide (x.begin_ < y.begin_ ∨ (x.begin_ = y.begin_ ∧ x.end_ ≤ y.end_))

/-- Modelled from the spec: concrete annotation classes of the ontology
catalog (a closed universe for the embedding); `QuestionSentence` stands
for a proper subclass of the sentence-like kind `Sentence`. -/
inductive AnnCls
  | Sentence
  | QuestionSentence
  | Token
deriving DecidableEq, Repr

/-- Modelled from the spec: concrete link classes. -/
inductive LnkCls
  | DepLink
deriving DecidableEq, Repr

/-- Modelled from the spec: concrete group classes. -/
inductive GrpCls
  | CorefGroup
deriving DecidableEq, Repr

/-- A concrete entry class, `type(entry)` in the source. -/
inductive EClass
  | a (c : AnnCls)
  | l (c : LnkCls)
  | g (c : GrpCls)
deriving DecidableEq, Repr

/-- Modelled from the spec: `issubclass` over the closed class universe —
reflexive, plus `QuestionSentence <: Sentence`. -/
def issub (x y : EClass) : Bool :=
  decide (x = y) ||
    (decide (x = EClass.a AnnCls.QuestionSentence) && decide (y = EClass.a AnnCls.Sentence))

/-- The three closed entry variants of the data model. -/
inductive Variant
  | annK
  | linkK
  | groupK
deriving DecidableEq, Repr

/-- Payload of an entry. -/
inductive EData
  | ann (c : AnnCls) (span : Span)
  | lnk (c : LnkCls) (parent child : String)
  | grp (c : GrpCls) (members : List String)
deriving DecidableEq, Repr

def EData.cls : EData → EClass
  | .ann c _ => .a c
  | .lnk c _ _ => .l c
  | .grp c _ => .g c

def EData.variant : EData → Variant
  | .ann _ _ => .annK
  | .lnk _ _ _ => .linkK
  | .grp _ _ => .groupK

/-- An entry: identifier (`tid`, assigned at insertion), producing
component, payload, and the caller-set attribute fields (string-valued in
the embedding) read back by `getattr`. -/
structure Entry where
  tid : String
  component : String
  data : EData
  flds : List (String × String)
deriving DecidableEq, Repr

def Entry.cls (e : Entry) : EClass := e.data.cls

/-- Span of an annotation entry (`entry.span`); dummy for the other
variants, which never enter the annotation container. -/
def spanOf (e : Entry) : Span :=
  match e.data with
  | .ann _ s => s
  | _ => ⟨0, 0⟩

/-- Per-kind bookkeeping (`InternalMeta`): id counter, `fields_created`
(component name to set of field names), default component. -/
structure InternalMeta where
  id_counter : Nat := 0
  fields_created : List (String × List String) := []
  default_component : Option String := none
deriving DecidableEq, Repr

/-- The index manager (`DataIndex`): always-on basic indexes plus the
switch-gated, lazily built link (parent/child) and group (member)
indexes. -/
structure DataIndex where
  entry_index : List (String × Entry) := []
  type_index : List (EClass × List String) := []
  component_index : List (String × List String) := []
  child_index : List (String × List String) := []
  parent_index : List (String × List String) := []
  group_index_d : List (String × List String) := []
  link_index_switch : Bool := false
  group_index_switch : Bool := false
deriving DecidableEq, Repr

/-- The entry store (`DataPack`): text buffer, sorted annotation
container, link and group lists, index manager and per-kind bookkeeping. -/
structure DataPack where
  text : String := ""
  annotations : List Entry := []
  links : List Entry := []
  groups : List Entry := []
  index : DataIndex := {}
  internal_metas : List (EClass × InternalMeta) := []
deriving DecidableEq, Repr

/-- A fresh pack, `DataPack()`. -/
def emptyPack : DataPack := {}

/-- `SortedList.add`: insert keeping `(begin, end)` order, after equal
keys (`bisect_right` insertion point). -/
def sl_add (x : Entry) : List Entry → List Entry
  | [] => [x]
  | y :: ys => if spanLTb (spanOf x) (spanOf y) then x :: y :: ys else y :: sl_add x ys

/-- `SortedList.bisect` (an alias of `bisect_right`) against a probe span. -/
def sl_bisect (v : Span) : List Entry → Nat
  | [] => 0
  | y :: ys => if spanLTb v (spanOf y) then 0 else sl_bisect v ys + 1

/-- `DataIndex.update_basic_index`: tid-to-entry, exact-type and
producing-component indexes. -/
def update_basic_index (di : DataIndex) (entries : List Entry) : DataIndex :=
  entries.foldl
    (fun di e =>
      { di with
        entry_index := aset di.entry_index e.tid e
        type_index := idxAdd di.type_index e.cls e.tid
        component_index := idxAdd di.component_index e.component e.tid })
    di

/-- Attribute `link.child` (a referenced tid). -/
def childTid (e : Entry) : String :=
  match e.data with
  | .lnk _ _ c => c
  | _ => ""

/-- Attribute `link.parent` (a referenced tid). -/
def parentTid (e : Entry) : String :=
  match e.data with
  | .lnk _ p _ => p
  | _ => ""

/-- Attribute `group.members` (referenced tids). -/
def membersOf (e : Entry) : List String :=
  match e.data with
  | .grp _ ms => ms
  | _ => []

/-- `DataIndex.update_link_index`: with the switch off, flip it on, reset
both sub-indexes and rebuild from the current link container, ignoring
the argument; with the switch on, append the given links incrementally. -/
def update_link_index (p : DataPack) (links : List Entry) : DataPack :=
  let st := p.index.link_index_switch
  let di0 := if st then p.index
             else { p.index with link_index_switch := true, child_index := [], parent_index := [] }
  let ls := if st then links else p.links
  let di := ls.foldl
    (fun di l =>
      { di with
        child_index := idxAdd di.child_index (childTid l) l.tid
        parent_index := idxAdd di.parent_index (parentTid l) l.tid })
    di0
  { p with index := di }

/-- `DataIndex.update_group_index`: the same lazy policy for the member
index. -/
def update_group_index (p : DataPack) (groups : List Entry) : DataPack :=
  let st := p.index.group_index_switch
  let di0 := if st then p.index
             else { p.index with group_index_switch := true, group_index_d := [] }
  let gs := if st then groups else p.groups
  let di := gs.foldl
    (fun di g =>
      (membersOf g).foldl
        (fun di m => { di with group_index_d := idxAdd di.group_index_d m g.tid }) di)
    di0
  { p with index := di }

/-- `DataPack.add_entry`: unconditional insert — mint the tid from the
per-kind counter, insert into the matching container, bump the counter,
update the basic indexes, and update the link/group index only while the
corresponding switch is on.  Returns the updated pack and the stored
entry. -/
def add_entry (p : DataPack) (e : Entry) : DataPack × Entry :=
  let meta := (alookup p.internal_metas e.cls).getD {}
  let e' := { e with tid := toString meta.id_counter }
  let p1 :=
    match e.data with
    | .ann _ _ => { p with annotations := sl_add e' p.annotations }
    | .lnk _ _ _ => { p with links := p.links ++ [e'] }
    | .grp _ _ => { p with groups := p.groups ++ [e'] }
  let p2 := { p1 with
    internal_metas := aset p1.internal_metas e.cls { meta with id_counter := meta.id_counter + 1 } }
  let p3 := { p2 with index := update_basic_index p2.index [e'] }
  let p4 := if p3.index.link_index_switch && decide (e.data.variant = .linkK)
            then update_link_index p3 [e'] else p3
  let p5 := if p4.index.group_index_switch && decide (e.data.variant = .groupK)
            then update_group_index p4 [e'] else p4
  (p5, e')

/-- Modelled from the spec: the caller-overridable entry equality used by
the conditional insert compares the entry's content (class and payload),
independently of the assigned tid. -/
def entryEq (e x : Entry) : Bool := decide (e.data = x.data)

/-- Target container of an entry's variant. -/
def containerOf (p : DataPack) (e : Entry) : List Entry :=
  match e.data with
  | .ann _ _ => p.annotations
  | .lnk _ _ _ => p.links
  | .grp _ _ => p.groups

/-- `DataPack.add_or_get_entry`: equality-based membership check first; if
an equal entry is already stored return it (the source's
`target[target.index(entry)]`, i.e. the first equal element) leaving the
pack untouched; otherwise insert exactly as `add_entry`, whose steps the
source inlines verbatim in this branch. -/
def add_or_get_entry (p : DataPack) (e : Entry) : DataPack × Entry :=
  match (containerOf p e).find? (fun x => entryEq e x) with
  | some x => (p, x)
  | none => add_entry p e

/-- Fold `add_entry` over a list of fresh entries, returning the final
pack and the stored entries in insertion order. -/
def addEntries (p : DataPack) : List Entry → DataPack × List Entry
  | [] => (p, [])
  | e :: es =>
    let r1 := add_entry p e
    let r2 := addEntries r1.1 es
    (r2.1, r1.2 :: r2.2)

/-- `DataPack.get_entry_by_id`: entry-index lookup, `KeyError` when the
tid is unknown. -/
def get_entry_by_id (p : DataPack) (tid : String) : Except String Entry :=
  match alookup p.index.entry_index tid with
  | some e => .ok e
  | none => .error "KeyError: no entry with this tid in this datapack"

/-- Most recently inserted element of a stored-entry list carrying the
given tid. -/
def lastWith (t : String) : List Entry → Option Entry
  | [] => none
  | e :: es =>
    match lastWith t es with
    | some x => some x
    | none => if e.tid = t then some e else none

/-- `DataPack.record_fields`: record that `component` has created
`fields` (plus the always-implicit `"tid"`) on `entry_type`; the first
writer observed becomes the default component. -/
def record_fields (p : DataPack) (fields : List String) (entry_type : EClass)
    (component : String) : DataPack :=
  let meta0 := (alookup p.internal_metas entry_type).getD {}
  let meta1 :=
    if (alookup p.internal_metas entry_type).isNone || meta0.default_component.isNone
    then { meta0 with default_component := some component } else meta0
  let fs := fields ++ ["tid"]
  let meta2 := { meta1 with
    fields_created := fs.foldl (fun fc f => idxAdd fc component f) meta1.fields_created }
  { p with internal_metas := aset p.internal_metas entry_type meta2 }

/-- `DataPack.set_text`: always succeeds; the boolean reports whether the
non-prefix overwrite warning was logged. -/
def set_text (p : DataPack) (t : String) : DataPack × Bool :=
  ({ p with text := t }, !(t.startsWith p.text))

/-- `DataPack.get_ids_by_type`: union of the id sets of every registered
concrete class that is a subclass of `tp`. -/
def get_ids_by_type (p : DataPack) (tp : EClass) : List String :=
  p.index.type_index.foldl (fun acc kv => if issub kv.1 tp then setUnion acc kv.2 else acc) []

/-- `DataPack.get_ids_by_compoent` (source spelling): component-index
lookup. -/
def get_ids_by_compoent (p : DataPack) (component : String) : List String :=
  (alookup p.index.component_index component).getD []

/-- Union of the component index over a component filter. -/
def compIdsUnion (p : DataPack) (cs : List String) : List String :=
  cs.foldl (fun acc c => setUnion acc (get_ids_by_compoent p c)) []

/-- `DataIndex.link_index` lookup: a first use with the switch off
performs the mutating full rebuild; returns the updated pack and the tids
of links whose parent (resp. child) is `tid`. -/
def link_index_lookup (p : DataPack) (tid : String) (as_parent : Bool) :
    DataPack × List String :=
  let p := if !p.index.link_index_switch then update_link_index p p.links else p
  (p, if as_parent then (alookup p.index.parent_index tid).getD []
      else (alookup p.index.child_index tid).getD [])

/-- Resolve a referenced tid through `entry_index` (`KeyError` when
absent). -/
def resolveEntry (p : DataPack) (tid : String) : Except String Entry :=
  match alookup p.index.entry_index tid with
  | some e => .ok e
  | none => .error "KeyError: unknown tid"

/-- Modelled from the spec: `.span` on a resolved reference — only
annotation entries carry a span (`AttributeError` otherwise). -/
def spanOfE (e : Entry) : Except String Span :=
  match e.data with
  | .ann _ s => .ok s
  | _ => .error "AttributeError: no span"

/-- `DataIndex.in_span`: an annotation uses its own span; a link the union
of the parent's and child's spans; a group the `-1`-seeded min/max fold
over the member spans (degenerate for the empty group).  Containment is
inclusive at both ends. -/
def in_span (p : DataPack) (e : Entry) (sp : Span) : Except String Bool :=
  match e.data with
  | .ann _ s => .ok (decide (s.begin_ ≥ sp.begin_ ∧ s.end_ ≤ sp.end_))
  | .lnk _ par ch => do
    let ce ← resolveEntry p ch
    let pe ← resolveEntry p par
    let cs ← spanOfE ce
    let ps ← spanOfE pe
    pure (decide (min cs.begin_ ps.begin_ ≥ sp.begin_ ∧ max cs.end_ ps.end_ ≤ sp.end_))
  | .grp _ mems => do
    let r ← mems.foldlM
      (fun (acc : Int × Int) m => do
        let me ← resolveEntry p m
        let ms ← spanOfE me
        let b := if acc.1 = -1 then ms.begin_ else acc.1
        pure (min b ms.begin_, max acc.2 ms.end_))
      ((-1 : Int), (-1 : Int))
    pure (decide (r.1 ≥ sp.begin_ ∧ r.2 ≤ sp.end_))

/-- `DataIndex.have_overlap`: both operands must be annotations
(`TypeError` otherwise); true iff the half-open spans intersect. -/
def have_overlap (e1 e2 : Entry) : Except String Bool :=
  match e1.data, e2.data with
  | .ann _ s1, .ann _ s2 =>
    .ok (!(decide (s1.begin_ ≥ s2.end_ ∨ s1.end_ ≤ s2.begin_)))
  | _, _ => .error "TypeError: operands must be annotations"

/-- Shape of one request value: a plain field list, a structured dict
with optional component filter, unit and fields, or absent (`None`). -/
inductive ReqArgs
  | flist (fields : List String)
  | fdict (component : Option (List String)) (unit : Option String) (fields : Option (List String))
  | fnone
deriving DecidableEq, Repr

def reqComponents : ReqArgs → Option (List String)
  | .fdict c _ _ => c
  | _ => none

def reqUnit : ReqArgs → Option String
  | .fdict _ u _ => u
  | _ => none

def reqFields : ReqArgs → List String
  | .flist fs => fs
  | .fdict _ _ (some fs) => fs
  | _ => []

/-- The source's `components is None or meta_c in components` test. -/
def compMatch (comps : Option (List String)) (c : String) : Bool :=
  match comps with
  | none => true
  | some cs => decide (c ∈ cs)

/-- Provenance check of `DataPack._parse_request_args`: some registered
subclass of the requested kind has a recording component, passing the
filter, whose recorded fields miss one of the requested fields. -/
def fieldsViolation (p : DataPack) (t : EClass) (comps : Option (List String))
    (fields : List String) : Bool :=
  p.internal_metas.any fun km =>
    issub km.1 t &&
      km.2.fields_created.any fun cf =>
        compMatch comps cf.1 && !(fields.all fun f => decide (f ∈ cf.2))

/-- `DataPack._parse_request_args`: extract the component filter, unit
and field set, run the provenance check (`KeyError` on violation), then
add the implicit `"tid"` field. -/
def parse_request_args (p : DataPack) (t : EClass) (args : ReqArgs) :
    Except String (Option (List String) × Option String × List String) :=
  let comps := reqComponents args
  let u := reqUnit args
  let fields := reqFields args
  if fieldsViolation p t comps fields then
    .error "KeyError: requested fields were not created by a matching component"
  else
    .ok (comps, u, if "tid" ∈ fields then fields else fields ++ ["tid"])

/-- `DataPack.get_entries`: computes the whole-pack range end by indexing
the last element of the annotation container when no range is given — an
`IndexError` on an empty container — then yields the entries of the
requested type within range, filtered by component. -/
def get_entries (p : DataPack) (entry_type : EClass) (range_ann : Option Entry)
    (components : Option (List String)) : Except String (List Entry) := do
  let range_begin : Int :=
    match range_ann with
    | some r => (spanOf r).begin_
    | none => 0
  let range_end : Int ←
    match range_ann with
    | some r => pure (spanOf r).end_
    | none =>
      match p.annotations.getLast? with
      | some a => pure (spanOf a).end_
      | none => .error "IndexError: list index out of range"
  let valid0 := get_ids_by_type p entry_type
  let valid_id :=
    match components with
    | none => valid0
    | some cs => valid0.filter fun t => decide (t ∈ compIdsUnion p cs)
  match entry_type with
  | .a _ =>
    let bi := sl_bisect ⟨range_begin, -1⟩ p.annotations
    let ei := sl_bisect ⟨range_end, -1⟩ p.annotations
    ((p.annotations.drop bi).take (ei - bi)).foldlM
      (fun acc x => do
        if x.tid ∈ valid_id then
          match range_ann with
          | none => pure (acc ++ [x])
          | some r => do
            let b ← in_span p x (spanOf r)
            pure (if b then acc ++ [x] else acc)
        else pure acc)
      []
  | _ =>
    valid_id.foldlM
      (fun acc tid => do
        let x ← get_entry_by_id p tid
        match range_ann with
        | none => pure (acc ++ [x])
        | some r => do
          let b ← in_span p x (spanOf r)
          pure (if b then acc ++ [x] else acc))
      []

/-- Python string slice `s[b:e]` (negative indices counted from the end,
then clamped). -/
def pySlice (s : String) (b e : Int) : String :=
  let n := s.length
  let bn := if b < 0 then ((n : Int) + b).toNat else min b.toNat n
  let en := if e < 0 then ((n : Int) + e).toNat else min e.toNat n
  String.mk ((s.toList.drop bn).take (en - bn))

/-- `getattr` on an entry: `tid` and `component` are built-in attributes,
other names resolve through the caller-set fields. -/
def getattrE (e : Entry) (f : String) : Except String String :=
  if f = "tid" then .ok e.tid
  else if f = "component" then .ok e.component
  else
    match alookup e.flds f with
    | some v => .ok v
    | none => .error "AttributeError: missing field"

/-- One record emitted by the sentence-context path of `get_data`. -/
structure SentRecord where
  context : String
  offset : Int
  flds : List (String × String)
deriving DecidableEq, Repr

/-- Record construction of the sentence loop: `context` is the text slice
covered by the sentence's span, `offset` its span begin, plus every
requested sentence field read via `getattr`. -/
def mkRecord (p : DataPack) (flds : List String) (s : Entry) : Except String SentRecord := do
  let vals ← flds.mapM fun f => do
    let v ← getattrE s f
    pure (f, v)
  pure ⟨pySlice p.text (spanOf s).begin_ (spanOf s).end_, (spanOf s).begin_, vals⟩

/-- Eligible sentence ids of the sentence-context path: ids of
(subclasses of) the base sentence kind, intersected with the component
filter's ids when the filter is truthy (a non-empty list). -/
def validSentIds (p : DataPack) (comps : Option (List String)) : List String :=
  let valid0 := get_ids_by_type p (.a .Sentence)
  match comps with
  | some (c :: cs) => valid0.filter fun t => decide (t ∈ compIdsUnion p (c :: cs))
  | _ => valid0

/-- The per-annotation eligibility test of the sentence loop:
`sent.tid in valid_sent_ids and isinstance(sent, sent_type)`. -/
def sentMatch (valid : List String) (st : EClass) (s : Entry) : Bool :=
  decide (s.tid ∈ valid) && issub s.cls st

/-- Sentence iteration of `get_data`: skip annotations failing the
eligibility test, skip the first `offset` matches, emit one record per
remaining match. -/
def sentLoop (p : DataPack) (st : EClass) (valid flds : List String) (offset skipped : Nat) :
    List Entry → Except String (List SentRecord)
  | [] => .ok []
  | s :: rest =>
    if sentMatch valid st s then
      if skipped < offset then sentLoop p st valid flds offset (skipped + 1) rest
      else do
        let r ← mkRecord p flds s
        let rs ← sentLoop p st valid flds offset skipped rest
        pure (r :: rs)
    else sentLoop p st valid flds offset skipped rest

/-- `DataPack.get_data` with `context_type = "sentence"`, specialised to a
request containing exactly one (sentence-like) entry type: for such a
request the per-type sub-record loops in the source body are no-ops, so
the branch reduces to request parsing, eligible-id computation and the
sentence loop. -/
def get_data_sentence (p : DataPack) (st : EClass) (args : ReqArgs) (offset : Nat) :
    Except String (List SentRecord) := do
  let pr ← parse_request_args p st args
  sentLoop p st (validSentIds p pr.1) pr.2.2 offset 0 p.annotations

/-- Effectful map used to state the sentence-path characterisation. -/
def mapME (f : Entry → Except String SentRecord) : List Entry → Except String (List SentRecord)
  | [] => .ok []
  | x :: xs => do
    let r ← f x
    let rs ← mapME f xs
    pure (r :: rs)

/-- An insertion step: unconditional or conditional insert. -/
inductive PackOp
  | addE (e : Entry)
  | addOrGet (e : Entry)

def applyOp (p : DataPack) : PackOp → DataPack
  | .addE e => (add_entry p e).1
  | .addOrGet e => (add_or_get_entry p e).1

def applyOps (p : DataPack) (ops : List PackOp) : DataPack := ops.foldl applyOp p

/-- Non-decreasing `(begin, end)` order of adjacent annotations. -/
def annSorted : List Entry → Bool
  | a :: b :: r => spanLEb (spanOf a) (spanOf b) && annSorted (b :: r)
  | _ => true

/-- Link-index state after an eager full rebuild from the current link
container. -/
def withBuiltLinkIdx (p : DataPack) : DataPack :=
  { p with index :=
      { p.index with
        link_index_switch := true
        child_index := p.links.foldl (fun m l => idxAdd m (childTid l) l.tid) []
        parent_index := p.links.foldl (fun m l => idxAdd m (parentTid l) l.tid) [] } }

instance {ε α : Type} [DecidableEq ε] [DecidableEq α] : DecidableEq (Except ε α) :=
  fun a b =>
    match a, b with
    | .error x, .error y =>
      match decEq x y with
      | isTrue h => isTrue (by rw [h])
      | isFalse h => isFalse (by intro hc; cases hc; exact h rfl)
    | .ok x, .ok y =>
      match decEq x y with
      | isTrue h => isTrue (by rw [h])
      | isFalse h => isFalse (by intro hc; cases hc; exact h rfl)
    | .error _, .ok _ => isFalse (by intro hc; cases hc)
    | .ok _, .error _ => isFalse (by intro hc; cases hc)

/-! ### Basic lemmas about the association-list model -/

theorem alookup_aset {κ α : Type} [DecidableEq κ] (m : List (κ × α)) (k : κ) (v : α) (q : κ) :
    alookup (aset m k v) q = if k = q then some v else alookup m q := by
  induction m with
  | nil => simp [aset, alookup]
  | cons kv rest ih =>
    simp only [aset]
    by_cases h1 : kv.1 = k
    · simp only [if_pos h1, alookup]
      by_cases h2 : k = q
      · simp [h2]
      · have hq : ¬ kv.1 = q := fun hh => h2 (h1.symm.trans hh)
        simp [alookup, h2, hq]
    · simp only [if_neg h1, alookup]
      by_cases h2 : kv.1 = q
      · have hk : ¬ k = q := fun hk => h1 (by rw [hk, ← h2])
        simp [h2, hk]
      · simp [h2, ih]

/-! ### C5: `have_overlap` -/

/-- C5.  For annotation operands `have_overlap` is true iff the half-open
spans intersect, i.e. `not (a.end <= b.begin or a.begin >= b.end)`;
touching spans do not overlap, properly intersecting ones do, and a span
overlaps itself. -/
theorem have_overlap_iff (e1 e2 : Entry) (k1 k2 : AnnCls) (s1 s2 : Span)
    (h1 : e1.data = .ann k1 s1) (h2 : e2.data = .ann k2 s2) :
    have_overlap e1 e2 = .ok true ↔ ¬(s1.end_ ≤ s2.begin_ ∨ s1.begin_ ≥ s2.end_) := by
  simp only [have_overlap, h1, h2, Except.ok.injEq, Bool.not_eq_true', decide_eq_false_iff_not]
  constructor
  · intro h; omega
  · intro h; simp only [not_or] at h; omega

/-- Witness for C5 at the spans `[0,5)` and `[4,10)` of the claim. -/
theorem have_overlap_iff_witness :
    (Entry.mk "" "c" (.ann .Token ⟨0, 5⟩) []).data = .ann AnnCls.Token ⟨0, 5⟩ ∧
    have_overlap ⟨"", "c", .ann .Token ⟨0, 5⟩, []⟩ ⟨"", "c", .ann .Token ⟨4, 10⟩, []⟩ = .ok true :=
  ⟨rfl, (have_overlap_iff _ _ AnnCls.Token AnnCls.Token ⟨0, 5⟩ ⟨4, 10⟩ rfl rfl).mpr (by decide)⟩

/-! ### C6: `in_span` on annotations -/

/-- C6.  For an annotation entry, `in_span` is true iff containment is
inclusive at both ends: `entry.span.begin >= span.begin` and
`entry.span.end <= span.end`. -/
theorem in_span_ann_iff (p : DataPack) (e : Entry) (k : AnnCls) (s sp : Span)
    (h : e.data = .ann k s) :
    in_span p e sp = .ok true ↔ (s.begin_ ≥ sp.begin_ ∧ s.end_ ≤ sp.end_) := by
  simp [in_span, h]

/-- Witness for C6: the annotation spanning `[2,8)` is in-span of
`[0,10)` and not in-span of `[0,5)`. -/
theorem in_span_ann_iff_witness :
    (Entry.mk "" "c" (.ann .Token ⟨2, 8⟩) []).data = .ann AnnCls.Token ⟨2, 8⟩ ∧
    in_span emptyPack ⟨"", "c", .ann .Token ⟨2, 8⟩, []⟩ ⟨0, 10⟩ = .ok true ∧
    in_span emptyPack ⟨"", "c", .ann .Token ⟨2, 8⟩, []⟩ ⟨0, 5⟩ = .ok false :=
  ⟨rfl, (in_span_ann_iff emptyPack _ AnnCls.Token ⟨2, 8⟩ ⟨0, 10⟩ rfl).mpr (by decide), by decide⟩

/-! ### C9: `set_text` -/

/-- C9.  `set_text` is total (it never raises): afterwards the buffer
equals exactly the new text, and the only effect of a non-prefix
overwrite is the logged warning, reported here as the boolean. -/
theorem set_text_spec (p : DataPack) (t : String) :
    (set_text p t).1.text = t ∧ ((set_text p t).2 = true ↔ ¬ t.startsWith p.text = true) := by
  simp [set_text]

/-! ### C10: `get_entries` on an empty annotation container -/

/-- C10.  With `range_annotation = None` and an empty annotation
container, `get_entries` raises `IndexError` for every requested entry
type (links and groups included), because the whole-pack range end
indexes the last element of the empty container before anything is
yielded. -/
theorem get_entries_empty_indexerror (p : DataPack) (et : EClass)
    (comps : Option (List String)) (h : p.annotations = []) :
    get_entries p et none comps = .error "IndexError: list index out of range" := by
  simp [get_entries, h]
  rfl

/-- Witness for C10 at a fresh pack and a link type. -/
theorem get_entries_empty_indexerror_witness :
    emptyPack.annotations = [] ∧
    get_entries emptyPack (.l .DepLink) none none =
      .error "IndexError: list index out of range" :=
  ⟨rfl, get_entries_empty_indexerror emptyPack (.l .DepLink) none rfl⟩

/-! ### C3: `_parse_request_args` provenance check -/

/-- C3 (amended).  Request normalisation succeeds iff every recording
component that matches the filter, for every registered subclass of the
requested kind, recorded a superset of the requested fields; in
particular it succeeds vacuously when no matching recording exists, and
one matching component lacking a requested field makes it fail even if
another matching component recorded that field. -/
theorem parse_request_args_ok_iff (p : DataPack) (t : EClass) (args : ReqArgs) :
    (parse_request_args p t args).isOk = true ↔
      ∀ km ∈ p.internal_metas, issub km.1 t = true →
        ∀ cf ∈ km.2.fields_created, compMatch (reqComponents args) cf.1 = true →
          ∀ f ∈ reqFields args, f ∈ cf.2 := by
  by_cases hv : fieldsViolation p t (reqComponents args) (reqFields args) = true
  · simp only [parse_request_args, hv, if_true, Except.isOk, Except.toBool,
      Bool.false_eq_true, false_iff]
    intro hall
    simp only [fieldsViolation, List.any_eq_true, Bool.and_eq_true, Bool.not_eq_true',
      decide_eq_true_eq] at hv
    obtain ⟨km, hkm, hsub, cf, hcf, hcm, hfall⟩ := hv
    have : (reqFields args).all (fun f => decide (f ∈ cf.2)) = true := by
      simp only [List.all_eq_true, decide_eq_true_eq]
      exact fun f hf => hall km hkm hsub cf hcf hcm f hf
    rw [this] at hfall
    cases hfall
  · simp only [parse_request_args, hv, if_false, Bool.false_eq_true, ite_false, Except.isOk,
      Except.toBool, true_iff]
    intro km hkm hsub cf hcf hcm f hf
    by_contra hnot
    apply hv
    simp only [fieldsViolation, List.any_eq_true, Bool.and_eq_true, Bool.not_eq_true']
    refine ⟨km, hkm, hsub, cf, hcf, hcm, ?_⟩
    rw [List.all_eq_false]
    exact ⟨f, hf, by simpa using hnot⟩

/-- Pack of the C3 counterexample: component `a` recorded field `f`,
component `b` recorded field `g`, both on `Token`. -/
def packC3 : DataPack :=
  record_fields (record_fields emptyPack ["f"] (.a .Token) "a") ["g"] (.a .Token) "b"

/-- Counterexample to C3 as stated: field `f` was recorded for `Token` by
component `a`, and the request is unfiltered, yet normalisation fails —
the source requires every matching recording (here also component `b`)
to cover the requested fields, not at least one. -/
theorem parse_request_args_cex :
    alookup ((alookup packC3.internal_metas (.a .Token)).getD {}).fields_created "a" =
      some ["f", "tid"] ∧
    (parse_request_args packC3 (.a .Token) (.flist ["f"])).isOk = false := by
  decide

/-! ### Structural lemmas about the index-update folds -/

theorem link_fold_eq (ls : List Entry) (di : DataIndex) :
    ls.foldl
      (fun di l =>
        { di with
          child_index := idxAdd di.child_index (childTid l) l.tid
          parent_index := idxAdd di.parent_index (parentTid l) l.tid }) di =
    { di with
      child_index := ls.foldl (fun m l => idxAdd m (childTid l) l.tid) di.child_index
      parent_index := ls.foldl (fun m l => idxAdd m (parentTid l) l.tid) di.parent_index } := by
  induction ls generalizing di with
  | nil => simp
  | cons l ls ih => simp [List.foldl_cons, ih]

theorem group_mem_fold_eq (ms : List String) (g : String) (di : DataIndex) :
    ms.foldl (fun di m => { di with group_index_d := idxAdd di.group_index_d m g }) di =
    { di with group_index_d := ms.foldl (fun acc m => idxAdd acc m g) di.group_index_d } := by
  induction ms generalizing di with
  | nil => simp
  | cons m ms ih => simp [List.foldl_cons, ih]

theorem group_fold_eq (gs : List Entry) (di : DataIndex) :
    gs.foldl
      (fun di g =>
        (membersOf g).foldl
          (fun di m => { di with group_index_d := idxAdd di.group_index_d m g.tid }) di) di =
    { di with
      group_index_d :=
        gs.foldl (fun acc g => (membersOf g).foldl (fun acc m => idxAdd acc m g.tid) acc)
          di.group_index_d } := by
  induction gs generalizing di with
  | nil => simp
  | cons g gs ih =>
    simp only [List.foldl_cons]
    rw [ih, group_mem_fold_eq]

theorem update_link_index_on (p : DataPack) (ls : List Entry)
    (h : p.index.link_index_switch = true) :
    update_link_index p ls =
      { p with index :=
          { p.index with
            child_index := ls.foldl (fun m l => idxAdd m (childTid l) l.tid) p.index.child_index
            parent_index :=
              ls.foldl (fun m l => idxAdd m (parentTid l) l.tid) p.index.parent_index } } := by
  unfold update_link_index
  simp [h, link_fold_eq]

theorem update_link_index_off (p : DataPack) (ls : List Entry)
    (h : p.index.link_index_switch = false) :
    update_link_index p ls = withBuiltLinkIdx p := by
  unfold update_link_index withBuiltLinkIdx
  simp [h, link_fold_eq]

theorem update_group_index_on (p : DataPack) (gs : List Entry)
    (h : p.index.group_index_switch = true) :
    update_group_index p gs =
      { p with index :=
          { p.index with
            group_index_d :=
              gs.foldl (fun acc g => (membersOf g).foldl (fun acc m => idxAdd acc m g.tid) acc)
                p.index.group_index_d } } := by
  unfold update_group_index
  simp [h, group_fold_eq]

theorem update_link_index_annotations (p : DataPack) (ls : List Entry) :
    (update_link_index p ls).annotations = p.annotations := rfl

theorem update_link_index_links (p : DataPack) (ls : List Entry) :
    (update_link_index p ls).links = p.links := rfl

theorem update_link_index_groups (p : DataPack) (ls : List Entry) :
    (update_link_index p ls).groups = p.groups := rfl

theorem update_group_index_annotations (p : DataPack) (gs : List Entry) :
    (update_group_index p gs).annotations = p.annotations := rfl

theorem update_group_index_links (p : DataPack) (gs : List Entry) :
    (update_group_index p gs).links = p.links := rfl

theorem update_group_index_groups (p : DataPack) (gs : List Entry) :
    (update_group_index p gs).groups = p.groups := rfl

theorem add_entry_snd (p : DataPack) (e : Entry) :
    (add_entry p e).2 =
      { e with tid := toString ((alookup p.internal_metas e.cls).getD {}).id_counter } := rfl

theorem add_entry_snd_data (p : DataPack) (e : Entry) : (add_entry p e).2.data = e.data := rfl

theorem add_entry_fst_annotations (p : DataPack) (e : Entry) :
    (add_entry p e).1.annotations =
      match e.data with
      | .ann _ _ => sl_add (add_entry p e).2 p.annotations
      | _ => p.annotations := by
  cases e with
  | mk t c d f =>
    cases d <;>
      simp [add_entry, EData.variant, apply_ite DataPack.annotations,
        update_link_index_annotations, update_group_index_annotations, ite_self,
        update_basic_index]

theorem add_entry_fst_links (p : DataPack) (e : Entry) :
    (add_entry p e).1.links =
      match e.data with
      | .lnk _ _ _ => p.links ++ [(add_entry p e).2]
      | _ => p.links := by
  cases e with
  | mk t c d f =>
    cases d <;>
      simp [add_entry, EData.variant, apply_ite DataPack.links,
        update_link_index_links, update_group_index_links, ite_self, update_basic_index]

theorem add_entry_fst_groups (p : DataPack) (e : Entry) :
    (add_entry p e).1.groups =
      match e.data with
      | .grp _ _ => p.groups ++ [(add_entry p e).2]
      | _ => p.groups := by
  cases e with
  | mk t c d f =>
    cases d <;>
      simp [add_entry, EData.variant, apply_ite DataPack.groups,
        update_link_index_groups, update_group_index_groups, ite_self, update_basic_index]

theorem update_link_index_entry_index (p : DataPack) (ls : List Entry) :
    (update_link_index p ls).index.entry_index = p.index.entry_index := by
  by_cases h : p.index.link_index_switch
  · rw [update_link_index_on p ls h]
  · rw [update_link_index_off p ls (by simpa using h)]
    rfl

theorem update_group_index_entry_index (p : DataPack) (gs : List Entry) :
    (update_group_index p gs).index.entry_index = p.index.entry_index := by
  unfold update_group_index
  by_cases h : p.index.group_index_switch <;> simp [h, group_fold_eq]

theorem add_entry_entry_index (p : DataPack) (e : Entry) (t : String) :
    alookup (add_entry p e).1.index.entry_index t =
      if (add_entry p e).2.tid = t then some (add_entry p e).2
      else alookup p.index.entry_index t := by
  have hsnd := add_entry_snd p e
  cases e with
  | mk et ec ed ef =>
    cases ed <;>
      simp [add_entry, EData.variant, update_basic_index,
        apply_ite (fun q : DataPack => q.index.entry_index),
        update_link_index_entry_index, update_group_index_entry_index, ite_self,
        alookup_aset]

/-! ### C1: unconditional insert vs identifier lookup -/

/-- C1 (amended).  After any sequence of unconditional inserts, an
identifier lookup returns the most recently inserted entry carrying that
tid (falling back to the pre-existing pack state when no inserted entry
carries it): per-kind id counters can mint the same tid string for
entries of different kinds, and the later insert overwrites the earlier
one in the flat `entry_index`, so the lookup returns the inserted entry
itself exactly when no later insert in the sequence was assigned the same
tid. -/
theorem add_entry_lookup_last (p0 : DataPack) (es : List Entry) (t : String) :
    get_entry_by_id (addEntries p0 es).1 t =
      match lastWith t (addEntries p0 es).2 with
      | some x => .ok x
      | none => get_entry_by_id p0 t := by
  induction es generalizing p0 with
  | nil => simp [addEntries, lastWith]
  | cons e es ih =>
    simp only [addEntries, lastWith]
    rw [ih]
    cases hlw : lastWith t (addEntries (add_entry p0 e).1 es).2 with
    | some x => simp
    | none =>
      simp only []
      unfold get_entry_by_id
      rw [add_entry_entry_index]
      by_cases ht : (add_entry p0 e).2.tid = t <;> simp [ht]

/-- First entry of the C1 counterexample: a sentence, minted tid `"0"`. -/
def cS : Entry := ⟨"", "x", .ann .Sentence ⟨0, 5⟩, []⟩

/-- Second entry of the C1 counterexample: a link of a different concrete
kind, also minted tid `"0"` by its own per-kind counter. -/
def cL : Entry := ⟨"", "x", .lnk .DepLink "0" "0", []⟩

/-- Counterexample to C1 as stated: inserting a sentence and then a link
mints the tid `"0"` twice, and the identifier lookup for the first
inserted entry's tid returns the link, not that entry. -/
theorem add_entry_lookup_cex :
    (addEntries emptyPack [cS, cL]).2.map Entry.tid = ["0", "0"] ∧
    get_entry_by_id (addEntries emptyPack [cS, cL]).1 "0" ≠
      .ok ((addEntries emptyPack [cS, cL]).2.headD cL) := by
  decide

/-! ### C4: conditional insert -/

theorem sl_add_length (x : Entry) (l : List Entry) : (sl_add x l).length = l.length + 1 := by
  induction l with
  | nil => rfl
  | cons y ys ih =>
    by_cases h : spanLTb (spanOf x) (spanOf y) = true <;> simp [sl_add, h, ih]

theorem find?_sl_add (x : Entry) (l : List Entry) (P : Entry → Bool) (hx : P x = true)
    (hl : ∀ y ∈ l, P y = false) : (sl_add x l).find? P = some x := by
  induction l with
  | nil => simp [sl_add, List.find?_cons_of_pos, hx]
  | cons y ys ih =>
    have hy : P y = false := hl y (by simp)
    by_cases h : spanLTb (spanOf x) (spanOf y) = true
    · simp [sl_add, h, List.find?_cons_of_pos, hx]
    · simp only [sl_add, h, if_false, Bool.false_eq_true, ite_false]
      rw [List.find?_cons_of_neg _ (by simp [hy])]
      exact ih (fun z hz => hl z (by simp [hz]))

theorem find?_append_last (l : List Entry) (x : Entry) (P : Entry → Bool) (hx : P x = true)
    (hl : ∀ y ∈ l, P y = false) : (l ++ [x]).find? P = some x := by
  induction l with
  | nil => simp [List.find?_cons_of_pos, hx]
  | cons y ys ih =>
    have hy : P y = false := hl y (by simp)
    rw [List.cons_append, List.find?_cons_of_neg _ (by simp [hy])]
    exact ih (fun z hz => hl z (by simp [hz]))

/-- C4.  Conditional insert: a first `add_or_get_entry` of a fresh entry
inserts it and grows the target container by exactly one; a second call
with an entry equal under the entry equality returns the already stored
entry with its existing identifier and leaves the pack (containers,
per-kind counters and all indexes) completely unchanged. -/
theorem add_or_get_entry_twice (p : DataPack) (e1 e2 : Entry)
    (h12 : entryEq e1 e2 = true)
    (hfresh : (containerOf p e1).find? (fun x => entryEq e1 x) = none) :
    (add_or_get_entry (add_or_get_entry p e1).1 e2).1 = (add_or_get_entry p e1).1 ∧
    (add_or_get_entry (add_or_get_entry p e1).1 e2).2 = (add_or_get_entry p e1).2 ∧
    (add_or_get_entry (add_or_get_entry p e1).1 e2).2.tid = (add_or_get_entry p e1).2.tid ∧
    (containerOf (add_or_get_entry p e1).1 e1).length = (containerOf p e1).length + 1 := by
  have hdata : e1.data = e2.data := by simpa [entryEq] using h12
  have h1 : add_or_get_entry p e1 = add_entry p e1 := by
    unfold add_or_get_entry
    rw [hfresh]
  have hsnddata : (add_entry p e1).2.data = e1.data := add_entry_snd_data p e1
  have hPeq : ∀ y : Entry, entryEq e2 y = entryEq e1 y := by
    intro y
    simp [entryEq, hdata]
  have hnone : ∀ y ∈ containerOf p e1, entryEq e2 y = false := by
    intro y hy
    rw [hPeq y]
    have := List.find?_eq_none.mp hfresh y hy
    simpa using this
  have hx2 : entryEq e2 (add_entry p e1).2 = true := by
    simp [entryEq, hsnddata, hdata]
  have hcont1 : containerOf (add_entry p e1).1 e1 =
      match e1.data with
      | .ann _ _ => sl_add (add_entry p e1).2 p.annotations
      | .lnk _ _ _ => p.links ++ [(add_entry p e1).2]
      | .grp _ _ => p.groups ++ [(add_entry p e1).2] := by
    unfold containerOf
    cases hd : e1.data with
    | ann c s =>
      have := add_entry_fst_annotations p e1
      rw [hd] at this
      simp [this]
    | lnk c pa ch =>
      have := add_entry_fst_links p e1
      rw [hd] at this
      simp [this]
    | grp c ms =>
      have := add_entry_fst_groups p e1
      rw [hd] at this
      simp [this]
  have hcont2 : containerOf (add_entry p e1).1 e2 = containerOf (add_entry p e1).1 e1 := by
    unfold containerOf
    rw [← hdata]
  have hfind2 : (containerOf (add_entry p e1).1 e2).find? (fun x => entryEq e2 x) =
      some (add_entry p e1).2 := by
    rw [hcont2, hcont1]
    cases hd : e1.data with
    | ann c s =>
      have hn : ∀ y ∈ p.annotations, entryEq e2 y = false := by
        intro y hy
        apply hnone
        unfold containerOf
        rw [hd]
        exact hy
      exact find?_sl_add _ _ _ hx2 hn
    | lnk c pa ch =>
      have hn : ∀ y ∈ p.links, entryEq e2 y = false := by
        intro y hy
        apply hnone
        unfold containerOf
        rw [hd]
        exact hy
      exact find?_append_last _ _ _ hx2 hn
    | grp c ms =>
      have hn : ∀ y ∈ p.groups, entryEq e2 y = false := by
        intro y hy
        apply hnone
        unfold containerOf
        rw [hd]
        exact hy
      exact find?_append_last _ _ _ hx2 hn
  have h2 : add_or_get_entry (add_entry p e1).1 e2 = ((add_entry p e1).1, (add_entry p e1).2) := by
    unfold add_or_get_entry
    rw [hfind2]
  rw [h1, h2]
  refine ⟨rfl, rfl, rfl, ?_⟩
  rw [hcont1]
  unfold containerOf
  cases hd : e1.data with
  | ann c s => simp [sl_add_length]
  | lnk c pa ch => simp
  | grp c ms => simp

/-- Witness entry for C4: a fresh token annotation. -/
def aW : Entry := ⟨"", "x", .ann .Token ⟨1, 3⟩, []⟩

/-- Witness for C4 at a fresh pack and two equal entries. -/
theorem add_or_get_entry_twice_witness :
    entryEq aW aW = true ∧
    (containerOf emptyPack aW).find? (fun x => entryEq aW x) = none ∧
    ((add_or_get_entry (add_or_get_entry emptyPack aW).1 aW).1 =
        (add_or_get_entry emptyPack aW).1 ∧
      (add_or_get_entry (add_or_get_entry emptyPack aW).1 aW).2 =
        (add_or_get_entry emptyPack aW).2 ∧
      (add_or_get_entry (add_or_get_entry emptyPack aW).1 aW).2.tid =
        (add_or_get_entry emptyPack aW).2.tid ∧
      (containerOf (add_or_get_entry emptyPack aW).1 aW).length =
        (containerOf emptyPack aW).length + 1) :=
  ⟨by decide, by decide, add_or_get_entry_twice emptyPack aW aW (by decide) (by decide)⟩

/-! ### C7: the annotation container stays sorted -/

theorem spanLEb_of_LTb (x y : Span) (h : spanLTb x y = true) : spanLEb x y = true := by
  simp only [spanLTb, decide_eq_true_eq] at h
  simp only [spanLEb, decide_eq_true_eq]
  omega

theorem spanLEb_total (x y : Span) (h : spanLTb x y = false) : spanLEb y x = true := by
  simp only [spanLTb, decide_eq_false_iff_not] at h
  simp only [spanLEb, decide_eq_true_eq]
  omega

theorem sl_add_sorted (x : Entry) : ∀ l : List Entry, annSorted l = true →
    annSorted (sl_add x l) = true := by
  intro l
  induction l with
  | nil => intro _; rfl
  | cons y ys ih =>
    intro h
    by_cases hlt : spanLTb (spanOf x) (spanOf y) = true
    · have : annSorted (x :: y :: ys) = true := by
        simp [annSorted, spanLEb_of_LTb _ _ hlt, h]
      simpa [sl_add, hlt] using this
    · have hle : spanLEb (spanOf y) (spanOf x) = true :=
        spanLEb_total _ _ (by simpa using hlt)
      cases ys with
      | nil => simp [sl_add, hlt, annSorted, hle]
      | cons z zs =>
        have h1 : spanLEb (spanOf y) (spanOf z) = true := by
          simp only [annSorted, Bool.and_eq_true] at h
          exact h.1
        have h2 : annSorted (z :: zs) = true := by
          simp only [annSorted, Bool.and_eq_true] at h
          exact h.2
        have ihz := ih h2
        by_cases hlt2 : spanLTb (spanOf x) (spanOf z) = true
        · have : annSorted (y :: x :: z :: zs) = true := by
            simp [annSorted, hle, spanLEb_of_LTb _ _ hlt2]
            simpa [annSorted] using h2
          simpa [sl_add, hlt, hlt2] using this
        · have hrec : annSorted (z :: sl_add x zs) = true := by
            simpa [sl_add, hlt2] using ihz
          have : annSorted (y :: z :: sl_add x zs) = true := by
            simp [annSorted, h1]
            simpa [annSorted] using hrec
          simpa [sl_add, hlt, hlt2] using this

theorem add_entry_annSorted (p : DataPack) (e : Entry)
    (h : annSorted p.annotations = true) :
    annSorted (add_entry p e).1.annotations = true := by
  have := add_entry_fst_annotations p e
  cases hd : e.data with
  | ann c s =>
    rw [hd] at this
    rw [this]
    exact sl_add_sorted _ _ h
  | lnk c pa ch =>
    rw [hd] at this
    rw [this]
    exact h
  | grp c ms =>
    rw [hd] at this
    rw [this]
    exact h

theorem applyOp_annSorted (p : DataPack) (op : PackOp)
    (h : annSorted p.annotations = true) :
    annSorted (applyOp p op).annotations = true := by
  cases op with
  | addE e => exact add_entry_annSorted p e h
  | addOrGet e =>
    simp only [applyOp, add_or_get_entry]
    cases hf : (containerOf p e).find? (fun x => entryEq e x) with
    | some x => exact h
    | none => exact add_entry_annSorted p e h

/-- C7.  However entries are inserted (unconditional or conditional
inserts, any kinds mixed in), the annotation container remains in
non-decreasing `(span.begin, span.end)` order, so iterating it yields the
annotations in non-decreasing span order. -/
theorem applyOps_annSorted (p : DataPack) (ops : List PackOp)
    (h : annSorted p.annotations = true) :
    annSorted (applyOps p ops).annotations = true := by
  induction ops generalizing p with
  | nil => exact h
  | cons op ops ih =>
    unfold applyOps
    rw [List.foldl_cons]
    exact ih (applyOp p op) (applyOp_annSorted p op h)

/-- Witness for C7: a fresh pack and a concrete mixed insertion sequence
(inserted out of span order) ends up sorted. -/
theorem applyOps_annSorted_witness :
    annSorted emptyPack.annotations = true ∧
    annSorted (applyOps emptyPack
      [.addE ⟨"", "x", .ann .Sentence ⟨4, 9⟩, []⟩,
       .addE ⟨"", "x", .ann .Token ⟨0, 2⟩, []⟩,
       .addOrGet ⟨"", "x", .ann .Token ⟨4, 6⟩, []⟩,
       .addE ⟨"", "x", .lnk .DepLink "0" "1", []⟩]).annotations = true :=
  ⟨by decide, applyOps_annSorted emptyPack _ (by decide)⟩

/-! ### C8: the sentence-context path of `get_data` -/

theorem sentLoop_eq (p : DataPack) (st : EClass) (valid flds : List String) :
    ∀ (l : List Entry) (offset skipped : Nat),
      sentLoop p st valid flds offset skipped l =
        mapME (mkRecord p flds) ((l.filter (sentMatch valid st)).drop (offset - skipped)) := by
  intro l
  induction l with
  | nil =>
    intro offset skipped
    simp [sentLoop, mapME]
  | cons s rest ih =>
    intro offset skipped
    by_cases hm : sentMatch valid st s = true
    · simp only [List.filter_cons, hm, if_true]
      by_cases hsk : skipped < offset
      · have hstep : sentLoop p st valid flds offset skipped (s :: rest) =
            sentLoop p st valid flds offset (skipped + 1) rest := by
          simp [sentLoop, hm, hsk]
        rw [hstep, ih,
          show offset - skipped = (offset - (skipped + 1)) + 1 from by omega,
          List.drop_succ_cons]
      · have h0 : offset - skipped = 0 := by omega
        have hstep : sentLoop p st valid flds offset skipped (s :: rest) =
            Bind.bind (mkRecord p flds s) (fun r =>
              Bind.bind (sentLoop p st valid flds offset skipped rest)
                (fun rs => pure (r :: rs))) := by
          simp [sentLoop, hm, hsk]
        rw [hstep, ih, h0]
        simp [mapME]
    · have hm' : sentMatch valid st s = false := by simpa using hm
      simp only [List.filter_cons, hm', Bool.false_eq_true, ite_false]
      have hstep : sentLoop p st valid flds offset skipped (s :: rest) =
          sentLoop p st valid flds offset skipped rest := by
        simp [sentLoop, hm']
      rw [hstep, ih]

/-- C8 (amended).  In sentence context with a single (sentence-like)
requested type, `get_data` iterates the stored annotation container in
order, keeps exactly the annotations whose tid belongs to the eligible
tid set (tids of sentence-kind entries, intersected with the tids
recorded for the filter components when a component filter is given) and
which are instances of the requested kind, skips the first `offset` such
matches, and emits one record per remaining match whose `context` is the
text slice covered by that sentence's span and whose `offset` is that
span's begin.  Because eligibility is tested on tids, an annotation whose
own component is outside the filter can still be emitted when another
entry shares its tid (per-kind counters can collide). -/
theorem get_data_sentence_eq (p : DataPack) (st : EClass) (args : ReqArgs) (offset : Nat)
    (comps : Option (List String)) (u : Option String) (flds : List String)
    (h : parse_request_args p st args = .ok (comps, u, flds)) :
    get_data_sentence p st args offset =
      mapME (mkRecord p flds)
        ((p.annotations.filter (sentMatch (validSentIds p comps) st)).drop offset) := by
  unfold get_data_sentence
  rw [h]
  show sentLoop p st (validSentIds p comps) flds offset 0 p.annotations = _
  rw [sentLoop_eq, Nat.sub_zero]

/-- Pack of the C8 counterexample and witness: text `"hello world"`, a
sentence `[0,5)` by component `x` (tid `"0"`), a token `[0,2)` by
component `y` (also tid `"0"`). -/
def packC8 : DataPack :=
  (add_entry (add_entry (set_text emptyPack "hello world").1
    ⟨"", "x", .ann .Sentence ⟨0, 5⟩, []⟩).1
    ⟨"", "y", .ann .Token ⟨0, 2⟩, []⟩).1

/-- Counterexample to C8 as stated: no sentence in the pack was produced
by a component of the filter `["y"]`, yet the sentence request filtered
to `["y"]` still emits the record of the `x`-component sentence, because
the filter tests tid membership and the token produced by `y` shares the
colliding tid `"0"`. -/
theorem get_data_sentence_cex :
    (packC8.annotations.filter
        (fun s => issub s.cls (.a .Sentence) && decide (s.component ∈ ["y"]))).length = 0 ∧
    get_data_sentence packC8 (.a .Sentence) (.fdict (some ["y"]) none none) 0 =
      .ok [⟨"hello", 0, [("tid", "0")]⟩] := by
  constructor
  · decide
  · rfl

/-- Witness for C8 at the concrete pack with an unfiltered sentence
request and `offset = 1` (the single matching sentence is skipped). -/
theorem get_data_sentence_eq_witness :
    parse_request_args packC8 (.a .Sentence) (.flist []) = .ok (none, none, ["tid"]) ∧
    get_data_sentence packC8 (.a .Sentence) (.flist []) 1 =
      mapME (mkRecord packC8 ["tid"])
        ((packC8.annotations.filter (sentMatch (validSentIds packC8 none) (.a .Sentence))).drop
          1) :=
  ⟨by decide, get_data_sentence_eq packC8 (.a .Sentence) (.flist []) 1 none none ["tid"]
    (by decide)⟩

/-! ### C2: lazy vs eager link index -/

theorem update_group_index_link_switch (p : DataPack) (gs : List Entry) :
    (update_group_index p gs).index.link_index_switch = p.index.link_index_switch := by
  unfold update_group_index
  by_cases h : p.index.group_index_switch <;> simp [h, group_fold_eq]

theorem add_entry_switch_off (p : DataPack) (e : Entry)
    (h : p.index.link_index_switch = false) :
    (add_entry p e).1.index.link_index_switch = false := by
  cases e with
  | mk et ec ed ef =>
    cases ed with
    | ann c s => simp [add_entry, update_basic_index, EData.variant, h]
    | lnk c pa ch => simp [add_entry, update_basic_index, EData.variant, h]
    | grp c ms =>
      by_cases hg : p.index.group_index_switch = true
      · simp [add_entry, update_basic_index, EData.variant, h, hg,
          update_group_index, group_fold_eq, group_mem_fold_eq]
      · simp [add_entry, update_basic_index, EData.variant, h,
          show p.index.group_index_switch = false by simpa using hg]

theorem addEntries_switch_off (p : DataPack) (es : List Entry)
    (h : p.index.link_index_switch = false) :
    (addEntries p es).1.index.link_index_switch = false := by
  induction es generalizing p with
  | nil => exact h
  | cons e es ih =>
    simp only [addEntries]
    exact ih (add_entry p e).1 (add_entry_switch_off p e h)

theorem add_entry_withBuilt (p : DataPack) (e : Entry)
    (h : p.index.link_index_switch = false) :
    add_entry (withBuiltLinkIdx p) e =
      (withBuiltLinkIdx (add_entry p e).1, (add_entry p e).2) := by
  cases e with
  | mk et ec ed ef =>
    cases ed with
    | ann c s =>
      simp [add_entry, withBuiltLinkIdx, update_basic_index, EData.variant, h]
    | lnk c pa ch =>
      simp [add_entry, withBuiltLinkIdx, update_basic_index, EData.variant, h,
        update_link_index, List.foldl_append, link_fold_eq]
    | grp c ms =>
      by_cases hg : p.index.group_index_switch = true
      · simp [add_entry, withBuiltLinkIdx, update_basic_index, EData.variant, h, hg,
          update_group_index, group_fold_eq, group_mem_fold_eq]
      · simp [add_entry, withBuiltLinkIdx, update_basic_index, EData.variant, h,
          show p.index.group_index_switch = false by simpa using hg]

theorem addEntries_withBuilt (p : DataPack) (es : List Entry)
    (h : p.index.link_index_switch = false) :
    addEntries (withBuiltLinkIdx p) es =
      (withBuiltLinkIdx (addEntries p es).1, (addEntries p es).2) := by
  induction es generalizing p with
  | nil => simp [addEntries]
  | cons e es ih =>
    simp only [addEntries]
    rw [add_entry_withBuilt p e h]
    rw [ih (add_entry p e).1 (add_entry_switch_off p e h)]

theorem link_index_lookup_fst_off (p : DataPack) (t : String) (ap : Bool)
    (h : p.index.link_index_switch = false) :
    (link_index_lookup p t ap).1 = withBuiltLinkIdx p := by
  simp [link_index_lookup, h, update_link_index_off p p.links h]

/-- C2.  Lazy versus eager equivalence of the link index: for any initial
pack with the link-index switch off, inserting any entries (in particular
N links) and then triggering the first link-index lookup returns, for
every queried tid and direction, exactly the same link-tid set as first
triggering a lookup (which performs the eager full rebuild and flips the
switch on) and then performing the same inserts, each updating the index
incrementally. -/
theorem link_index_lazy_eager (p0 : DataPack) (h : p0.index.link_index_switch = false)
    (es : List Entry) (t t0 : String) (ap ap0 : Bool) :
    (link_index_lookup (addEntries p0 es).1 t ap).2 =
    (link_index_lookup (addEntries (link_index_lookup p0 t0 ap0).1 es).1 t ap).2 := by
  rw [link_index_lookup_fst_off p0 t0 ap0 h]
  rw [addEntries_withBuilt p0 es h]
  have hsw : (addEntries p0 es).1.index.link_index_switch = false :=
    addEntries_switch_off p0 es h
  simp only [link_index_lookup, hsw, update_link_index_off (addEntries p0 es).1 _ hsw]
  rfl

/-- First link of the C2 witness. -/
def wL1 : Entry := ⟨"", "x", .lnk .DepLink "p1" "c1", []⟩

/-- Second link of the C2 witness, sharing the parent `p1`. -/
def wL2 : Entry := ⟨"", "x", .lnk .DepLink "p1" "c2", []⟩

/-- Witness for C2: two links inserted into a fresh pack; the lazy first
lookup and the eager-then-incremental run agree on the parent query. -/
theorem link_index_lazy_eager_witness :
    emptyPack.index.link_index_switch = false ∧
    (link_index_lookup (addEntries emptyPack [wL1, wL2]).1 "p1" true).2 =
      (link_index_lookup
        (addEntries (link_index_lookup emptyPack "z" false).1 [wL1, wL2]).1 "p1" true).2 :=
  ⟨rfl, link_index_lazy_eager emptyPack rfl [wL1, wL2] "p1" "z" true false⟩
